import Mathlib

/-!
Verification development for the kickstarter-reward-notifier sources.

The Go sources are shallowly embedded: dynamic JSON values obtained from
json.Unmarshal into a Go interface value are modelled by the inductive type
GoVal, Go type assertions become functions into Except GoPanic, the global
mutable Project structure is passed explicitly through the reconciler, and
runtime panics (failed type assertions, writes through a nil pointer) are
the error component of Except. JSON numbers arrive in Go as float64 and are
converted with int(...); all numeric fields of interest are whole unit
counts, so they are modelled directly as integers and the conversion is the
identity. External library calls (the regular expression search, HTML
entity unescaping, json.Unmarshal, the telebot delivery call) are taken as
abstract function parameters, while every piece of control flow of the
repository itself is translated from main.go and the notifications package.
-/

set_option maxRecDepth 4000

/-- Dynamic value, as stored in a Go interface after json.Unmarshal. -/
inductive GoVal where
  | vstr : String → GoVal
  | vnum : Int → GoVal
  | vbool : Bool → GoVal
  | varr : List GoVal → GoVal
  | vobj : List (String × GoVal) → GoVal

/-- Runtime panic of the Go program: a failed type assertion, or a write
through a nil pointer obtained from a map lookup of an absent key. -/
inductive GoPanic where
  | typeAssertion
  | nilDeref
deriving DecidableEq, Repr

/-- Lookup in a Go map with string keys; absent keys give the nil interface. -/
def lookupIn : List (String × GoVal) → String → Option GoVal
  | [], _ => none
  | (k2, v) :: rest, k => if k2 = k then some v else lookupIn rest k

/-- Lookup in a possibly nil Go map, as returned by getProjectJSON. -/
def lookupKey (m : Option (List (String × GoVal))) (k : String) : Option GoVal :=
  match m with
  | none => none
  | some l => lookupIn l k

/-- Go type assertion v.(string); panics unless the value is a string. -/
def assertString : Option GoVal → Except GoPanic String
  | some (GoVal.vstr s) => Except.ok s
  | _ => Except.error GoPanic.typeAssertion

/-- Go type assertion v.(float64) followed by int(...); numbers are modelled
as integers, so the truncation is the identity. -/
def assertNum : Option GoVal → Except GoPanic Int
  | some (GoVal.vnum n) => Except.ok n
  | _ => Except.error GoPanic.typeAssertion

/-- Go type assertion v.([]interface) on the rewards array. -/
def assertArr : Option GoVal → Except GoPanic (List GoVal)
  | some (GoVal.varr l) => Except.ok l
  | _ => Except.error GoPanic.typeAssertion

/-- Go type assertion v.(map[string]interface) on one reward entry. -/
def assertObj : Option GoVal → Except GoPanic (List (String × GoVal))
  | some (GoVal.vobj o) => Except.ok o
  | _ => Except.error GoPanic.typeAssertion

/-- Key strings used by getProjectData in main.go. -/
def kName : String := "name"

def kCurrencySymbol : String := "currency_symbol"

def kRewards : String := "rewards"

def kLimit : String := "limit"

def kRemaining : String := "remaining"

def kId : String := "id"

def kTitle : String := "title"

def kTitleForBackingTier : String := "title_for_backing_tier"

def kMinimum : String := "minimum"

/-- Reward structure of main.go. -/
structure Reward where
  id : Int
  title : String
  title_with_price : String
  price : Int
  available : Int
  limit : Int
deriving DecidableEq, Repr

/-- Project structure of main.go; the map from reward id to Reward is
modelled as an association list whose entries the insert operation replaces
in place, matching Go map assignment. -/
structure Project where
  name : String
  rewards : List (Int × Reward)
  currency_symbol : String
  initialized : Bool
deriving DecidableEq, Repr

/-- Go map lookup by integer key; gives none for an absent key, which for a
map with pointer values is the nil pointer. -/
def mLookup {α : Type} : List (Int × α) → Int → Option α
  | [], _ => none
  | (k2, v) :: rest, k => if k2 = k then some v else mLookup rest k

/-- Go map assignment by integer key: replace the entry if the key is
present, append it otherwise. -/
def mInsert {α : Type} : List (Int × α) → Int → α → List (Int × α)
  | [], k, v => [(k, v)]
  | (k2, v2) :: rest, k, v =>
    if k2 = k then (k, v) :: rest else (k2, v2) :: mInsert rest k v

/-- Bootstrap body of getProjectData (main.go lines 74 to 86) for one entry
of the rewards array: a reward that declares a limit key and whose remaining
is exactly 0 is inserted with its identity fields; available and limit stay
at the Go zero value until the refresh pass. -/
def bootstrapEntry (m : List (Int × Reward)) (v : GoVal) :
    Except GoPanic (List (Int × Reward)) :=
  match assertObj (some v) with
  | Except.error e => Except.error e
  | Except.ok o =>
    if (lookupIn o kLimit).isSome then
      match assertNum (lookupIn o kRemaining) with
      | Except.error e => Except.error e
      | Except.ok rem =>
        if rem = 0 then
          match assertNum (lookupIn o kId) with
          | Except.error e => Except.error e
          | Except.ok rid =>
            match assertString (lookupIn o kTitle) with
            | Except.error e => Except.error e
            | Except.ok title =>
              match assertString (lookupIn o kTitleForBackingTier) with
              | Except.error e => Except.error e
              | Except.ok twp =>
                match assertNum (lookupIn o kMinimum) with
                | Except.error e => Except.error e
                | Except.ok price =>
                  Except.ok (mInsert m rid ⟨rid, title, twp, price, 0, 0⟩)
        else Except.ok m
    else Except.ok m

/-- Bootstrap loop of getProjectData over the rewards array. -/
def bootstrapRewards : List GoVal → List (Int × Reward) →
    Except GoPanic (List (Int × Reward))
  | [], m => Except.ok m
  | v :: rest, m =>
    match bootstrapEntry m v with
    | Except.error e => Except.error e
    | Except.ok m2 => bootstrapRewards rest m2

/-- Refresh body of getProjectData (main.go lines 90 to 98) for one entry:
only an entry that declares a limit key and whose remaining is exactly 0 is
considered, its id is looked up in the catalog, and the fields available and
limit of the found reward are overwritten; the lookup of an absent id gives
a nil pointer and the following field write panics. -/
def refreshEntry (m : List (Int × Reward)) (v : GoVal) :
    Except GoPanic (List (Int × Reward)) :=
  match assertObj (some v) with
  | Except.error e => Except.error e
  | Except.ok o =>
    if (lookupIn o kLimit).isSome then
      match assertNum (lookupIn o kRemaining) with
      | Except.error e => Except.error e
      | Except.ok rem =>
        if rem = 0 then
          match assertNum (lookupIn o kId) with
          | Except.error e => Except.error e
          | Except.ok rid =>
            match mLookup m rid with
            | none => Except.error GoPanic.nilDeref
            | some rw =>
              match assertNum (lookupIn o kLimit) with
              | Except.error e => Except.error e
              | Except.ok lim =>
                Except.ok (mInsert m rid
                  ⟨rw.id, rw.title, rw.title_with_price, rw.price, rem, lim⟩)
        else Except.ok m
    else Except.ok m

/-- Refresh loop of getProjectData over the rewards array. -/
def refreshRewards : List GoVal → List (Int × Reward) →
    Except GoPanic (List (Int × Reward))
  | [], m => Except.ok m
  | v :: rest, m =>
    match refreshEntry m v with
    | Except.error e => Except.error e
    | Except.ok m2 => refreshRewards rest m2

/-- First-call part of getProjectData: read name and currency_symbol, then
build the catalog from the rewards array and set the initialized flag. -/
def bootstrapProject (doc : Option (List (String × GoVal))) :
    Except GoPanic Project :=
  match assertString (lookupKey doc kName) with
  | Except.error e => Except.error e
  | Except.ok pname =>
    match assertString (lookupKey doc kCurrencySymbol) with
    | Except.error e => Except.error e
    | Except.ok cur =>
      match assertArr (lookupKey doc kRewards) with
      | Except.error e => Except.error e
      | Except.ok arr =>
        match bootstrapRewards arr [] with
        | Except.error e => Except.error e
        | Except.ok m => Except.ok ⟨pname, m, cur, true⟩

/-- Mutable-data part of getProjectData, run on every call. -/
def refreshProject (doc : Option (List (String × GoVal))) (p : Project) :
    Except GoPanic Project :=
  match assertArr (lookupKey doc kRewards) with
  | Except.error e => Except.error e
  | Except.ok arr =>
    match refreshRewards arr p.rewards with
    | Except.error e => Except.error e
    | Except.ok m => Except.ok ⟨p.name, m, p.currency_symbol, p.initialized⟩

/-- Embedding of getProjectData (main.go lines 67 to 99): on the first call
the immutable data is read and the catalog is built, then on every call the
refresh loop runs over the same document. The document argument is the value
returned by getProjectJSON, which may be the nil map. -/
def getProjectData (doc : Option (List (String × GoVal))) (p : Project) :
    Except GoPanic Project :=
  if p.initialized then refreshProject doc p
  else
    match bootstrapProject doc with
    | Except.error e => Except.error e
    | Except.ok p1 => refreshProject doc p1

/-- Scan of the polling loop in main (main.go lines 307 to 318): the ids of
watched rewards whose available field is positive, i.e. the rewards a
notification is emitted for in this cycle. -/
def availableRewardIds (watch : List (Int × Reward)) : List Int :=
  (watch.filter (fun q => decide (0 < q.2.available))).map (fun q => q.1)

/-- Environment abstracting the library calls of getProjectJSON: findMatch
models jsonRegexp.FindStringSubmatch on one script text and returns the
first capture group, unescape models html.UnescapeString, and unmarshal
models json.Unmarshal into a map, with none standing for a decode error. -/
structure ExtractEnv where
  findMatch : String → Option String
  unescape : String → String
  unmarshal : String → Option (List (String × GoVal))

/-- Embedding of the extraction part of getProjectJSON (main.go lines 122 to
133): scan the script texts in order, stop at the first one the pattern
matches, unescape the captured group and decode it, discarding the decode
error; with no match, or with a failing decode, the projectDetails variable
keeps its nil zero value and is returned anyway. -/
def getProjectJSON (env : ExtractEnv) : List String →
    Option (List (String × GoVal))
  | [] => none
  | s :: rest =>
    match env.findMatch s with
    | some captured => env.unmarshal (env.unescape captured)
    | none => getProjectJSON env rest

/-- Extraction failure taxonomy stated by the specification. -/
inductive ExtractionError where
  | noMatch
  | invalidJSON
deriving DecidableEq, Repr

/-- Modelled from the spec: section 4.1 states the extractor fails with
ExtractionError if no script element text matches the required pattern or if
the matched text is not valid JSON after HTML entity decoding, and returns a
decoded document only on a successful decode of the first match. The source
function getProjectJSON is compared against this contract. -/
def getProjectJSONSpec (env : ExtractEnv) : List String →
    Except ExtractionError (List (String × GoVal))
  | [] => Except.error ExtractionError.noMatch
  | s :: rest =>
    match env.findMatch s with
    | some captured =>
      match env.unmarshal (env.unescape captured) with
      | some d => Except.ok d
      | none => Except.error ExtractionError.invalidJSON
    | none => getProjectJSONSpec env rest

/-- Embedding of findRewardsByPrice (main.go lines 286 to 294): the ids of
all catalog entries whose price equals the requested price. Go map iteration
order is arbitrary; the catalog storage order stands in for it, and every
statement proved below is order independent. -/
def findRewardsByPrice (rewards : List (Int × Reward)) (price : Int) :
    List Int :=
  (rewards.filter (fun q => decide (q.2.price = price))).map (fun q => q.1)

/-- Result of registerWatchedRewards. The exitSuccess case models the call
of os.Exit with status 0 on an empty catalog. In the registered case, watch
is the settings.watch map built before the summary is printed: Go stores
pointers in it, so a value may be the nil pointer, modelled by none. The
warned list holds the prices reported as matching nothing, and interactive
records whether askRewardsToWatch was invoked because the map was empty. -/
inductive RegisterOutcome where
  | exitSuccess
  | registered (watch : List (Int × Option Reward)) (warned : List Int)
      (interactive : Bool)
deriving DecidableEq, Repr

/-- Price-list loop of registerWatchedRewards (main.go lines 236 to 245).
For each requested price the matching ids are computed; with no match the
price is recorded as warned, otherwise the source loop is for i := range r,
which ranges over the slice indices 0, 1, ..., so the entry watch[i] :=
project.rewards[i] is keyed by the index and holds the possibly nil pointer
found at that index in the catalog map. -/
def priceLoop (rewards : List (Int × Reward)) :
    List Int → List (Int × Option Reward) × List Int →
    List (Int × Option Reward) × List Int
  | [], acc => acc
  | price :: rest, (w, warn) =>
    let r := findRewardsByPrice rewards price
    if r.length = 0 then priceLoop rewards rest (w, warn ++ [price])
    else
      priceLoop rewards rest
        ((List.range r.length).foldl
          (fun w2 i => mInsert w2 (Int.ofNat i) (mLookup rewards (Int.ofNat i)))
          w, warn)

/-- Embedding of registerWatchedRewards (main.go lines 225 to 259): an empty
catalog exits the process with status 0 before any selection logic; with the
all flag the watch map becomes the whole catalog; otherwise a non-empty
price list runs the price loop; finally the interactive prompt runs exactly
when the watch map is still empty. -/
def registerWatchedRewards (rewards : List (Int × Reward))
    (watchAll : Bool) (watchList : List Int) : RegisterOutcome :=
  if rewards.length = 0 then RegisterOutcome.exitSuccess
  else
    let res : List (Int × Option Reward) × List Int :=
      if watchAll then (rewards.map (fun q => (q.1, some q.2)), [])
      else if watchList.length ≠ 0 then priceLoop rewards watchList ([], [])
      else ([], [])
    RegisterOutcome.registered res.1 res.2 (res.1.length == 0)

/-- Summary loop of registerWatchedRewards (main.go lines 254 to 258): each
watched pointer is dereferenced for its title_with_price, so a nil entry in
the watch map panics there. -/
def summaryPanics (watch : List (Int × Option Reward)) : Bool :=
  watch.any (fun q => q.2.isNone)

/-- Suffix test of the Go standard library strings.HasSuffix, on the
character list model of Go strings. -/
def goHasSuffix (s suffix : List Char) : Bool :=
  decide (suffix.length ≤ s.length) &&
    decide (List.drop (s.length - suffix.length) s = suffix)

/-- Parsed project URL, after url.ParseRequestURI succeeded: preQuery is the
serialization of everything before the query string and rawQuery the query
string itself, so that the String method renders preQuery, then a question
mark and the query when the query is non-empty. -/
structure GoURL where
  preQuery : List Char
  rawQuery : List Char
deriving DecidableEq, Repr

/-- Rendering of the URL String method on the model. -/
def GoURL.render (u : GoURL) : List Char :=
  if u.rawQuery.isEmpty then u.preQuery else u.preQuery ++ '?' :: u.rawQuery

/-- Literal suffix appended by parseArgs. -/
def descriptionSuffix : List Char := "/description".toList

/-- URL normalization of parseArgs (main.go lines 211 to 221): clear the
query string, rerender, and keep the result when it already ends with the
description suffix, otherwise append the suffix. -/
def parseArgsNormalizeURL (u : GoURL) : List Char :=
  let stripped := GoURL.render ⟨u.preQuery, []⟩
  if goHasSuffix stripped descriptionSuffix then stripped
  else stripped ++ descriptionSuffix

/-- Telegram notifier configuration: the values of the tg-token and
tg-user-id flags read back by the token and userID accessors. -/
structure Telegram where
  token : String
  userID : Int
deriving DecidableEq, Repr

/-- Embedding of Telegram.isConfigured: both the token and the user id must
be defined. -/
def Telegram.isConfigured (tg : Telegram) : Bool :=
  !(tg.token == "") && !(tg.userID == 0)

/-- Embedding of Telegram.Send: when the notifier is configured the message
is handed to the telebot library, abstracted by deliver, and its error is
returned; otherwise nil is returned and nothing is attempted. The boolean
records whether a delivery was attempted. -/
def Telegram.Send (tg : Telegram) (deliver : String → Option String)
    (message : String) : Option String × Bool :=
  if tg.isConfigured then (deliver message, true) else (none, false)

/-- Name switch shared by SendNotification, IsConfigured and TestNotifiers
in notifiers.go: only the telegram case invokes a Send, every other name
produces a nil error and no attempt. -/
def notifierStep (tg : Telegram) (deliver : String → Option String)
    (message : String) (n : String) : Option String × Bool :=
  if n = "telegram" then Telegram.Send tg deliver message else (none, false)

/-- Embedding of SendNotification (notifiers.go lines 55 to 67): walk the
notifier list in order, return the first non-nil Send error at once, and
return nil after the loop otherwise. The second component is the list of
notifier names through which a delivery was attempted. -/
def SendNotification (tg : Telegram) (deliver : String → Option String)
    (message : String) : List String → Option String × List String
  | [] => (none, [])
  | n :: rest =>
    let step := notifierStep tg deliver message n
    match step.1 with
    | some e => (some e, if step.2 then [n] else [])
    | none =>
      let tail := SendNotification tg deliver message rest
      (tail.1, (if step.2 then [n] else []) ++ tail.2)

/-- Embedding of Notifier.IsConfigured from notifiers.go: the telegram case
delegates to the Telegram configuration test and the default case is false. -/
def notifierIsConfigured (tg : Telegram) (n : String) : Bool :=
  if n = "telegram" then tg.isConfigured else false

/-- Fixed test message of TestNotifiers. -/
def testMessage : String := "This is a test notification"

/-- Aggregate error message built by TestNotifiers from the per-channel
failures. -/
def testFailureMessage (k n : Nat) (fails : List String) : String :=
  "Failure while testing notifiers: " ++ toString k ++ "/" ++ toString n ++
    " notifiers returned an error.\n" ++
    String.join (fails.map (fun f => f ++ "\n"))

/-- Embedding of TestNotifiers (notifiers.go lines 80 to 113): count the
configured notifiers and fail at once when none is configured; otherwise
send the test message through every notifier, collect all failures, and
aggregate them into a single error. -/
def TestNotifiers (tg : Telegram) (deliver : String → Option String)
    (ns : List String) : Option String :=
  let enabled := (ns.filter (fun n => notifierIsConfigured tg n)).length
  if enabled = 0 then some "no notifier has been configured"
  else
    let failures := ns.filterMap
      (fun n => if n = "telegram" then (Telegram.Send tg deliver testMessage).1
        else none)
    if failures.isEmpty then none
    else some (testFailureMessage failures.length enabled failures)

/-- Registry built by InitNotifiers: the AllNotifiers structure embeds
exactly one notifier struct, Telegram, so the reflective slice sizing gives
one entry, initialized by TelegramInit with the name telegram. -/
def initNotifierNames : List String := ["telegram"]

/-- Gate of parseArgs for the test-notification flag (main.go lines 194 to
203): with the flag set, a non-nil TestNotifiers error exits the process
with status 1, and a nil result continues; the returned value is the exit
status if the process exits here. -/
def testNotificationGate (flagSet : Bool) (testResult : Option String) :
    Option Nat :=
  if flagSet then
    match testResult with
    | some _ => some 1
    | none => none
  else none

/-- Uninitialized project as at process start, the Go zero value. -/
def emptyProject : Project := ⟨"", [], "", false⟩

/-- Bootstrap document entry: reward 1 is limited and exhausted. -/
def entryA0 : GoVal :=
  GoVal.vobj [(kId, GoVal.vnum 1), (kTitle, GoVal.vstr "A"),
    (kTitleForBackingTier, GoVal.vstr "A (10 USD)"),
    (kMinimum, GoVal.vnum 10), (kRemaining, GoVal.vnum 0),
    (kLimit, GoVal.vnum 50)]

/-- Later poll entry: the same reward 1 with five units remaining. -/
def entryA5 : GoVal :=
  GoVal.vobj [(kId, GoVal.vnum 1), (kTitle, GoVal.vstr "A"),
    (kTitleForBackingTier, GoVal.vstr "A (10 USD)"),
    (kMinimum, GoVal.vnum 10), (kRemaining, GoVal.vnum 5),
    (kLimit, GoVal.vnum 50)]

/-- Later poll entry: a reward 2 that became limited and exhausted only
after bootstrap, so it is absent from the catalog. -/
def entryB0 : GoVal :=
  GoVal.vobj [(kId, GoVal.vnum 2), (kRemaining, GoVal.vnum 0),
    (kLimit, GoVal.vnum 10)]

/-- Bootstrap document with the single exhausted limited reward 1. -/
def doc0 : List (String × GoVal) :=
  [(kName, GoVal.vstr "Proj"), (kCurrencySymbol, GoVal.vstr "USD"),
    (kRewards, GoVal.varr [entryA0])]

/-- Second poll document: reward 1 has regained five units. -/
def doc1 : List (String × GoVal) :=
  [(kName, GoVal.vstr "Proj"), (kCurrencySymbol, GoVal.vstr "USD"),
    (kRewards, GoVal.varr [entryA5])]

/-- Second poll document: a fresh exhausted limited reward 2 appears. -/
def doc2 : List (String × GoVal) :=
  [(kName, GoVal.vstr "Proj"), (kCurrencySymbol, GoVal.vstr "USD"),
    (kRewards, GoVal.varr [entryB0])]

/-- Catalog state right after bootstrap on doc0. -/
def projA : Project :=
  ⟨"Proj", [(1, ⟨1, "A", "A (10 USD)", 10, 0, 50⟩)], "USD", true⟩

theorem mLookup_mInsert {α : Type} (m : List (Int × α)) (k i : Int) (v : α) :
    mLookup (mInsert m k v) i = if i = k then some v else mLookup m i := by
  induction m with
  | nil =>
    by_cases h : i = k
    · subst h; simp [mInsert, mLookup]
    · have h2 : ¬(k = i) := fun hh => h hh.symm
      simp [mInsert, mLookup, h, h2]
  | cons hd tl ih =>
    obtain ⟨k2, v2⟩ := hd
    by_cases hk : k2 = k
    · subst hk
      by_cases hik : i = k2
      · subst hik; simp [mInsert, mLookup]
      · have h2 : ¬(k2 = i) := fun hh => hik hh.symm
        simp [mInsert, mLookup, hik, h2]
    · by_cases hik : k2 = i
      · have h2 : ¬(i = k) := fun hh => hk (hik.trans hh)
        simp [mInsert, mLookup, hk, hik, h2]
      · simp [mInsert, mLookup, hk, hik, ih]

theorem mem_mInsert {α : Type} (m : List (Int × α)) (k : Int) (v : α) :
    ∀ q ∈ mInsert m k v, q = (k, v) ∨ q ∈ m := by
  induction m with
  | nil => intro q hq; simp [mInsert] at hq; exact Or.inl hq
  | cons hd tl ih =>
    obtain ⟨k2, v2⟩ := hd
    intro q hq
    by_cases hk : k2 = k
    · simp [mInsert, hk] at hq
      rcases hq with rfl | hq
      · exact Or.inl rfl
      · exact Or.inr (List.mem_cons_of_mem _ hq)
    · simp [mInsert, hk] at hq
      rcases hq with rfl | hq
      · exact Or.inr (List.mem_cons_self _ _)
      · rcases ih q hq with h | h
        · exact Or.inl h
        · exact Or.inr (List.mem_cons_of_mem _ h)

theorem assertNum_ok {x : Option GoVal} {n : Int} :
    assertNum x = Except.ok n ↔ x = some (GoVal.vnum n) := by
  cases x with
  | none => simp [assertNum]
  | some gv => cases gv <;> simp [assertNum]

theorem assertString_ok {x : Option GoVal} {s : String} :
    assertString x = Except.ok s ↔ x = some (GoVal.vstr s) := by
  cases x with
  | none => simp [assertString]
  | some gv => cases gv <;> simp [assertString]

theorem assertArr_ok {x : Option GoVal} {l : List GoVal} :
    assertArr x = Except.ok l ↔ x = some (GoVal.varr l) := by
  cases x with
  | none => simp [assertArr]
  | some gv => cases gv <;> simp [assertArr]

theorem assertObj_ok {x : Option GoVal} {o : List (String × GoVal)} :
    assertObj x = Except.ok o ↔ x = some (GoVal.vobj o) := by
  cases x with
  | none => simp [assertObj]
  | some gv => cases gv <;> simp [assertObj]

/-- Test that a dynamic value is the number n. -/
def numIs (x : Option GoVal) (n : Int) : Bool :=
  match x with
  | some (GoVal.vnum m) => m == n
  | _ => false

/-- Bootstrap candidacy of one rewards array entry, carrying the given id:
the entry is an object that declares a limit key, whose remaining field is
the number 0 and whose id field is the given number. This is the condition
under which getProjectData inserts a catalog entry at bootstrap. -/
def isCandidateFor (v : GoVal) (i : Int) : Bool :=
  match v with
  | GoVal.vobj o =>
    (lookupIn o kLimit).isSome && numIs (lookupIn o kRemaining) 0 &&
      numIs (lookupIn o kId) i
  | _ => false

theorem bootstrapEntry_cases {m m2 : List (Int × Reward)} {v : GoVal}
    (h : bootstrapEntry m v = Except.ok m2) :
    (m2 = m ∧ ∀ i, isCandidateFor v i = false) ∨
    (∃ rid title twp price,
      m2 = mInsert m rid ⟨rid, title, twp, price, 0, 0⟩ ∧
      ∀ i, (isCandidateFor v i = true ↔ i = rid)) := by
  unfold bootstrapEntry at h
  cases v with
  | vstr s => simp [assertObj] at h
  | vnum n => simp [assertObj] at h
  | vbool b => simp [assertObj] at h
  | varr l => simp [assertObj] at h
  | vobj o =>
    simp only [assertObj] at h
    by_cases hl : (lookupIn o kLimit).isSome = true
    · rw [if_pos hl] at h
      cases hrem : assertNum (lookupIn o kRemaining) with
      | error e => rw [hrem] at h; cases h
      | ok rem =>
        rw [hrem] at h
        dsimp only at h
        rw [assertNum_ok] at hrem
        by_cases h0 : rem = 0
        · rw [if_pos h0] at h
          subst h0
          cases hid : assertNum (lookupIn o kId) with
          | error e => rw [hid] at h; cases h
          | ok rid =>
            rw [hid] at h
            dsimp only at h
            rw [assertNum_ok] at hid
            cases ht : assertString (lookupIn o kTitle) with
            | error e => rw [ht] at h; cases h
            | ok title =>
              rw [ht] at h
              dsimp only at h
              cases htw : assertString (lookupIn o kTitleForBackingTier) with
              | error e => rw [htw] at h; cases h
              | ok twp =>
                rw [htw] at h
                dsimp only at h
                cases hmin : assertNum (lookupIn o kMinimum) with
                | error e => rw [hmin] at h; cases h
                | ok price =>
                  rw [hmin] at h
                  dsimp only at h
                  simp only [Except.ok.injEq] at h
                  subst h
                  refine Or.inr ⟨rid, title, twp, price, rfl, ?_⟩
                  intro i
                  simp [isCandidateFor, hl, numIs, hrem, hid]
                  exact eq_comm
        · rw [if_neg h0] at h
          simp only [Except.ok.injEq] at h
          subst h
          refine Or.inl ⟨rfl, ?_⟩
          intro i
          simp [isCandidateFor, numIs, hrem, h0]
    · rw [if_neg hl] at h
      simp only [Except.ok.injEq] at h
      subst h
      refine Or.inl ⟨rfl, ?_⟩
      intro i
      have hl2 : (lookupIn o kLimit).isSome = false := by
        cases hx : (lookupIn o kLimit).isSome
        · rfl
        · exact absurd hx hl
      simp [isCandidateFor, hl2]

theorem refreshEntry_cases {m m2 : List (Int × Reward)} {v : GoVal}
    (h : refreshEntry m v = Except.ok m2) :
    m2 = m ∨
    (∃ rid rw lim, mLookup m rid = some rw ∧
      m2 = mInsert m rid ⟨rw.id, rw.title, rw.title_with_price, rw.price, 0, lim⟩) := by
  unfold refreshEntry at h
  cases v with
  | vstr s => simp [assertObj] at h
  | vnum n => simp [assertObj] at h
  | vbool b => simp [assertObj] at h
  | varr l => simp [assertObj] at h
  | vobj o =>
    simp only [assertObj] at h
    by_cases hl : (lookupIn o kLimit).isSome = true
    · rw [if_pos hl] at h
      cases hrem : assertNum (lookupIn o kRemaining) with
      | error e => rw [hrem] at h; cases h
      | ok rem =>
        rw [hrem] at h
        dsimp only at h
        by_cases h0 : rem = 0
        · rw [if_pos h0] at h
          subst h0
          cases hid : assertNum (lookupIn o kId) with
          | error e => rw [hid] at h; cases h
          | ok rid =>
            rw [hid] at h
            dsimp only at h
            cases hrw : mLookup m rid with
            | none => rw [hrw] at h; cases h
            | some rw2 =>
              rw [hrw] at h
              dsimp only at h
              cases hlim : assertNum (lookupIn o kLimit) with
              | error e => rw [hlim] at h; cases h
              | ok lim =>
                rw [hlim] at h
                dsimp only at h
                simp only [Except.ok.injEq] at h
                subst h
                exact Or.inr ⟨rid, rw2, lim, hrw, rfl⟩
        · rw [if_neg h0] at h
          simp only [Except.ok.injEq] at h
          exact Or.inl h.symm
    · rw [if_neg hl] at h
      simp only [Except.ok.injEq] at h
      exact Or.inl h.symm

theorem bootstrapEntry_mem {m m2 : List (Int × Reward)} {v : GoVal} (i : Int)
    (h : bootstrapEntry m v = Except.ok m2) :
    (mLookup m2 i).isSome = true ↔
      ((mLookup m i).isSome = true ∨ isCandidateFor v i = true) := by
  rcases bootstrapEntry_cases h with ⟨rfl, hc⟩ | ⟨rid, title, twp, price, rfl, hc⟩
  · simp [hc i]
  · rw [mLookup_mInsert]
    by_cases hik : i = rid
    · subst hik; simp [(hc i).mpr rfl]
    · simp only [if_neg hik]
      constructor
      · exact fun hh => Or.inl hh
      · intro hh
        rcases hh with hh | hh
        · exact hh
        · exact absurd ((hc i).mp hh) hik

theorem bootstrapRewards_mem (entries : List GoVal) :
    ∀ (acc m : List (Int × Reward)), bootstrapRewards entries acc = Except.ok m →
    ∀ i, ((mLookup m i).isSome = true ↔
      ((mLookup acc i).isSome = true ∨ ∃ v ∈ entries, isCandidateFor v i = true)) := by
  induction entries with
  | nil =>
    intro acc m h i
    simp only [bootstrapRewards] at h
    injection h with h
    subst h
    simp
  | cons v rest ih =>
    intro acc m h i
    simp only [bootstrapRewards] at h
    cases hstep : bootstrapEntry acc v with
    | error e => rw [hstep] at h; cases h
    | ok acc2 =>
      rw [hstep] at h
      dsimp only at h
      rw [ih acc2 m h i, bootstrapEntry_mem i hstep]
      simp only [List.mem_cons]
      constructor
      · rintro ((ha | hc) | ⟨v2, hv2, hc2⟩)
        · exact Or.inl ha
        · exact Or.inr ⟨v, Or.inl rfl, hc⟩
        · exact Or.inr ⟨v2, Or.inr hv2, hc2⟩
      · rintro (ha | ⟨v2, (rfl | hv2), hc2⟩)
        · exact Or.inl (Or.inl ha)
        · exact Or.inl (Or.inr hc2)
        · exact Or.inr ⟨v2, hv2, hc2⟩

theorem refreshEntry_keys {m m2 : List (Int × Reward)} {v : GoVal}
    (h : refreshEntry m v = Except.ok m2) :
    ∀ i, (mLookup m2 i).isSome = (mLookup m i).isSome := by
  rcases refreshEntry_cases h with rfl | ⟨rid, rw2, lim, hrw, rfl⟩
  · intro i; rfl
  · intro i
    rw [mLookup_mInsert]
    by_cases hik : i = rid
    · subst hik; simp [hrw]
    · simp [hik]

theorem refreshRewards_keys (entries : List GoVal) :
    ∀ m m2, refreshRewards entries m = Except.ok m2 →
    ∀ i, (mLookup m2 i).isSome = (mLookup m i).isSome := by
  induction entries with
  | nil =>
    intro m m2 h i
    simp only [refreshRewards] at h
    injection h with h
    subst h
    rfl
  | cons v rest ih =>
    intro m m2 h i
    simp only [refreshRewards] at h
    cases hstep : refreshEntry m v with
    | error e => rw [hstep] at h; cases h
    | ok mm =>
      rw [hstep] at h
      dsimp only at h
      rw [ih mm m2 h i, refreshEntry_keys hstep i]

/-- Identity fields of two rewards agree. -/
def identitySame (a b : Reward) : Prop :=
  b.id = a.id ∧ b.title = a.title ∧ b.title_with_price = a.title_with_price ∧
    b.price = a.price

instance (a b : Reward) : Decidable (identitySame a b) := by
  unfold identitySame
  infer_instance

theorem identitySame_refl (a : Reward) : identitySame a a :=
  ⟨rfl, rfl, rfl, rfl⟩

theorem identitySame_trans {a b c : Reward} (h1 : identitySame a b)
    (h2 : identitySame b c) : identitySame a c :=
  ⟨h2.1.trans h1.1, h2.2.1.trans h1.2.1, h2.2.2.1.trans h1.2.2.1,
    h2.2.2.2.trans h1.2.2.2⟩

theorem refreshEntry_identity {m m2 : List (Int × Reward)} {v : GoVal}
    (h : refreshEntry m v = Except.ok m2) :
    ∀ i r, mLookup m i = some r →
      ∃ r2, mLookup m2 i = some r2 ∧ identitySame r r2 := by
  rcases refreshEntry_cases h with rfl | ⟨rid, rw2, lim, hrw, rfl⟩
  · exact fun i r hr => ⟨r, hr, identitySame_refl r⟩
  · intro i r hr
    rw [mLookup_mInsert]
    by_cases hik : i = rid
    · subst hik
      rw [hrw] at hr
      injection hr with hr
      subst hr
      exact ⟨⟨rw2.id, rw2.title, rw2.title_with_price, rw2.price, 0, lim⟩,
        by simp, ⟨rfl, rfl, rfl, rfl⟩⟩
    · exact ⟨r, by simp [hik, hr], identitySame_refl r⟩

theorem refreshRewards_identity (entries : List GoVal) :
    ∀ m m2, refreshRewards entries m = Except.ok m2 →
    ∀ i r, mLookup m i = some r →
      ∃ r2, mLookup m2 i = some r2 ∧ identitySame r r2 := by
  induction entries with
  | nil =>
    intro m m2 h i r hr
    simp only [refreshRewards] at h
    injection h with h
    subst h
    exact ⟨r, hr, identitySame_refl r⟩
  | cons v rest ih =>
    intro m m2 h i r hr
    simp only [refreshRewards] at h
    cases hstep : refreshEntry m v with
    | error e => rw [hstep] at h; cases h
    | ok mm =>
      rw [hstep] at h
      dsimp only at h
      obtain ⟨r1, hr1, hs1⟩ := refreshEntry_identity hstep i r hr
      obtain ⟨r2, hr2, hs2⟩ := ih mm m2 h i r1 hr1
      exact ⟨r2, hr2, identitySame_trans hs1 hs2⟩

theorem bootstrapEntry_avail {m m2 : List (Int × Reward)} {v : GoVal}
    (h : bootstrapEntry m v = Except.ok m2)
    (h0 : ∀ q ∈ m, q.2.available = 0) : ∀ q ∈ m2, q.2.available = 0 := by
  rcases bootstrapEntry_cases h with ⟨rfl, _⟩ | ⟨rid, title, twp, price, rfl, _⟩
  · exact h0
  · intro q hq
    rcases mem_mInsert _ _ _ q hq with rfl | hq2
    · rfl
    · exact h0 q hq2

theorem refreshEntry_avail {m m2 : List (Int × Reward)} {v : GoVal}
    (h : refreshEntry m v = Except.ok m2)
    (h0 : ∀ q ∈ m, q.2.available = 0) : ∀ q ∈ m2, q.2.available = 0 := by
  rcases refreshEntry_cases h with rfl | ⟨rid, rw2, lim, hrw, rfl⟩
  · exact h0
  · intro q hq
    rcases mem_mInsert _ _ _ q hq with rfl | hq2
    · rfl
    · exact h0 q hq2

theorem bootstrapRewards_avail (entries : List GoVal) :
    ∀ acc m, bootstrapRewards entries acc = Except.ok m →
    (∀ q ∈ acc, q.2.available = 0) → ∀ q ∈ m, q.2.available = 0 := by
  induction entries with
  | nil =>
    intro acc m h h0
    simp only [bootstrapRewards] at h
    injection h with h
    subst h
    exact h0
  | cons v rest ih =>
    intro acc m h h0
    simp only [bootstrapRewards] at h
    cases hstep : bootstrapEntry acc v with
    | error e => rw [hstep] at h; cases h
    | ok acc2 =>
      rw [hstep] at h
      dsimp only at h
      exact ih acc2 m h (bootstrapEntry_avail hstep h0)

theorem refreshRewards_avail (entries : List GoVal) :
    ∀ m m2, refreshRewards entries m = Except.ok m2 →
    (∀ q ∈ m, q.2.available = 0) → ∀ q ∈ m2, q.2.available = 0 := by
  induction entries with
  | nil =>
    intro m m2 h h0
    simp only [refreshRewards] at h
    injection h with h
    subst h
    exact h0
  | cons v rest ih =>
    intro m m2 h h0
    simp only [refreshRewards] at h
    cases hstep : refreshEntry m v with
    | error e => rw [hstep] at h; cases h
    | ok mm =>
      rw [hstep] at h
      dsimp only at h
      exact ih mm m2 h (refreshEntry_avail hstep h0)

theorem refreshProject_ok {doc : Option (List (String × GoVal))} {p q : Project}
    (h : refreshProject doc p = Except.ok q) :
    ∃ arr m, assertArr (lookupKey doc kRewards) = Except.ok arr ∧
      refreshRewards arr p.rewards = Except.ok m ∧
      q = ⟨p.name, m, p.currency_symbol, p.initialized⟩ := by
  unfold refreshProject at h
  cases ha : assertArr (lookupKey doc kRewards) with
  | error e => rw [ha] at h; cases h
  | ok arr =>
    rw [ha] at h
    dsimp only at h
    cases hr : refreshRewards arr p.rewards with
    | error e => rw [hr] at h; cases h
    | ok m =>
      rw [hr] at h
      dsimp only at h
      injection h with h
      exact ⟨arr, m, rfl, hr, h.symm⟩

theorem bootstrapProject_ok {doc : Option (List (String × GoVal))} {p : Project}
    (h : bootstrapProject doc = Except.ok p) :
    ∃ pname cur arr m, assertString (lookupKey doc kName) = Except.ok pname ∧
      assertString (lookupKey doc kCurrencySymbol) = Except.ok cur ∧
      assertArr (lookupKey doc kRewards) = Except.ok arr ∧
      bootstrapRewards arr [] = Except.ok m ∧
      p = ⟨pname, m, cur, true⟩ := by
  unfold bootstrapProject at h
  cases hn : assertString (lookupKey doc kName) with
  | error e => rw [hn] at h; cases h
  | ok pname =>
    rw [hn] at h
    dsimp only at h
    cases hc : assertString (lookupKey doc kCurrencySymbol) with
    | error e => rw [hc] at h; cases h
    | ok cur =>
      rw [hc] at h
      dsimp only at h
      cases ha : assertArr (lookupKey doc kRewards) with
      | error e => rw [ha] at h; cases h
      | ok arr =>
        rw [ha] at h
        dsimp only at h
        cases hb : bootstrapRewards arr [] with
        | error e => rw [hb] at h; cases h
        | ok m =>
          rw [hb] at h
          dsimp only at h
          injection h with h
          exact ⟨pname, cur, arr, m, rfl, rfl, rfl, hb, h.symm⟩

theorem getProjectData_initialized {doc : Option (List (String × GoVal))}
    {p q : Project} (hp : p.initialized = true)
    (h : getProjectData doc p = Except.ok q) :
    refreshProject doc p = Except.ok q := by
  unfold getProjectData at h
  rw [hp] at h
  simpa using h

theorem getProjectData_uninitialized {doc : Option (List (String × GoVal))}
    {p q : Project} (hp : p.initialized = false)
    (h : getProjectData doc p = Except.ok q) :
    ∃ p1, bootstrapProject doc = Except.ok p1 ∧
      refreshProject doc p1 = Except.ok q := by
  unfold getProjectData at h
  rw [hp] at h
  simp only [Bool.false_eq_true, if_false] at h
  cases hb : bootstrapProject doc with
  | error e => rw [hb] at h; cases h
  | ok p1 =>
    rw [hb] at h
    dsimp only at h
    exact ⟨p1, rfl, h⟩

theorem availableRewardIds_eq_nil (m : List (Int × Reward))
    (h : ∀ q ∈ m, q.2.available = 0) : availableRewardIds m = [] := by
  induction m with
  | nil => rfl
  | cons hd tl ih =>
    have h1 : hd.2.available = 0 := h hd (List.mem_cons_self hd tl)
    have h2 : availableRewardIds tl = [] :=
      ih (fun q hq => h q (List.mem_cons_of_mem hd hq))
    unfold availableRewardIds at h2 ⊢
    simp only [List.filter_cons, h1]
    simpa using h2

/-- Claim C1, settled as a code bug. The claim states that every refresh
call overwrites available with remaining for each limited entry already in
the catalog, so that a positive remaining becomes visible to the watch scan
on the same cycle. The refresh loop of getProjectData, however, guards its
update with remaining equal to 0 (main.go line 93), so available is only
ever overwritten with the value 0: starting from any state whose catalog has
no positive available, which holds right after bootstrap, every successful
getProjectData call again leaves every available at 0 and the watch scan of
the polling loop finds nothing, so no notification can ever fire. -/
theorem c1_refresh_keeps_available_zero (doc : Option (List (String × GoVal)))
    (p p2 : Project) (h0 : ∀ q ∈ p.rewards, q.2.available = 0)
    (h : getProjectData doc p = Except.ok p2) :
    (∀ q ∈ p2.rewards, q.2.available = 0) ∧
      availableRewardIds p2.rewards = [] := by
  have hall : ∀ q ∈ p2.rewards, q.2.available = 0 := by
    cases hp : p.initialized with
    | false =>
      obtain ⟨p1, hb, hr⟩ := getProjectData_uninitialized hp h
      obtain ⟨pname, cur, arr, m, hn, hc, ha, hbr, rfl⟩ := bootstrapProject_ok hb
      obtain ⟨arr2, m2, ha2, hrr, rfl⟩ := refreshProject_ok hr
      exact refreshRewards_avail arr2 _ _ hrr
        (bootstrapRewards_avail arr _ _ hbr (fun q hq => absurd hq (by simp)))
    | true =>
      obtain ⟨arr2, m2, ha2, hrr, rfl⟩ :=
        refreshProject_ok (getProjectData_initialized hp h)
      exact refreshRewards_avail arr2 _ _ hrr h0
  exact ⟨hall, availableRewardIds_eq_nil p2.rewards hall⟩

/-- Witness for C1 at the failing input: bootstrap on doc0 puts reward 1 in
the catalog with available 0; the next poll document doc1 reports remaining
5 for it, yet getProjectData returns the state unchanged, every available is
still 0 and the scan selects nothing, where the claim promises the scan
observes available greater than 0 on this very cycle. -/
theorem c1_refresh_keeps_available_zero_witness :
    getProjectData (some doc0) emptyProject = Except.ok projA ∧
    getProjectData (some doc1) projA = Except.ok projA ∧
    (∀ q ∈ projA.rewards, q.2.available = 0) ∧
    availableRewardIds projA.rewards = [] := by
  refine ⟨rfl, rfl, ?_⟩
  exact c1_refresh_keeps_available_zero (some doc1) projA projA (by decide) rfl

/-- Claim C2, settled as a code bug. The claim states that a rewards entry
that is limited, exhausted and not in the catalog is ignored by a refresh
call without any error. On the initialized state projA, whose catalog holds
only reward 1, the document doc2 carries exactly such an entry for reward 2:
the refresh loop looks its id up in the catalog, obtains the nil pointer,
and the write to the available field panics, terminating the process,
instead of completing normally. -/
theorem c2_new_exhausted_entry_panics :
    projA.initialized = true ∧
    mLookup projA.rewards 2 = none ∧
    isCandidateFor entryB0 2 = true ∧
    getProjectData (some doc2) projA = Except.error GoPanic.nilDeref :=
  ⟨rfl, rfl, rfl, rfl⟩

/-- Extraction environment in which the pattern matches no script text and
the decoder always fails, a concrete instantiation of the abstract library
calls used for counterexamples. -/
def env0 : ExtractEnv := ⟨fun _ => none, fun s => s, fun _ => none⟩

/-- Counterexample to claim C3 as stated: on a page whose only script text
the pattern does not match, the source extractor does not fail with any
distinguished extraction error. It returns the nil document as an ordinary
value, where the stated contract, embodied by getProjectJSONSpec, demands
the noMatch extraction error; and the subsequent field access in
getProjectData then dies of a generic type assertion panic. -/
theorem c3_counterexample :
    getProjectJSON env0 ["var x = 1;"] = none ∧
    getProjectJSONSpec env0 ["var x = 1;"] =
      Except.error ExtractionError.noMatch ∧
    getProjectData none emptyProject = Except.error GoPanic.typeAssertion :=
  ⟨rfl, rfl, rfl⟩

/-- Claim C3 amended: the extractor getProjectJSON never reports an error.
When no script text matches the pattern it returns the nil document; when
the first matching script captures text whose decode fails, the
json.Unmarshal error is discarded and the nil document is returned as well;
a document is returned only when the first match decodes successfully; and
getProjectData applied to the nil document fails with a type assertion
panic, not with a distinguished extraction error. -/
theorem c3_extractor_returns_nil_document (env : ExtractEnv)
    (scripts : List String) (p : Project) :
    ((∀ s ∈ scripts, env.findMatch s = none) →
      getProjectJSON env scripts = none) ∧
    (∀ s c rest, env.findMatch s = some c →
      env.unmarshal (env.unescape c) = none →
      getProjectJSON env (s :: rest) = none) ∧
    (∀ d, getProjectJSON env scripts = some d →
      ∃ s c, s ∈ scripts ∧ env.findMatch s = some c ∧
        env.unmarshal (env.unescape c) = some d) ∧
    getProjectData none p = Except.error GoPanic.typeAssertion := by
  refine ⟨?_, ?_, ?_, ?_⟩
  · induction scripts with
    | nil => intro h; rfl
    | cons s rest ih =>
      intro h
      have hs := h s (List.mem_cons_self s rest)
      simp only [getProjectJSON, hs]
      exact ih (fun t ht => h t (List.mem_cons_of_mem s ht))
  · intro s c rest hm hu
    simp only [getProjectJSON, hm, hu]
  · induction scripts with
    | nil => intro d h; cases h
    | cons s rest ih =>
      intro d h
      simp only [getProjectJSON] at h
      cases hm : env.findMatch s with
      | some c =>
        rw [hm] at h
        dsimp only at h
        exact ⟨s, c, List.mem_cons_self s rest, hm, h⟩
      | none =>
        rw [hm] at h
        dsimp only at h
        obtain ⟨s2, c2, hs2, hm2, hu2⟩ := ih d h
        exact ⟨s2, c2, List.mem_cons_of_mem s hs2, hm2, hu2⟩
  · cases hp : p.initialized with
    | false =>
      unfold getProjectData
      rw [hp]
      rfl
    | true =>
      unfold getProjectData
      rw [hp]
      rfl

/-- Witness for the amended C3 at a concrete no-match page of two scripts. -/
theorem c3_extractor_returns_nil_document_witness :
    getProjectJSON env0 ["var x = 1;", "let y;"] = none ∧
    getProjectData none emptyProject = Except.error GoPanic.typeAssertion := by
  have h := c3_extractor_returns_nil_document env0 ["var x = 1;", "let y;"]
    emptyProject
  exact ⟨h.1 (fun s hs => rfl), h.2.2.2⟩

/-- Claim C4: confirmed. On a bootstrap call from the uninitialized zero
state, an id is in the produced catalog exactly when some entry of the
rewards array of the document is a candidate for it, that is, declares a
limit key, has remaining exactly 0, and carries that id; and any further
call on an initialized state leaves catalog membership unchanged, so a
reward failing the condition at bootstrap is never added later. -/
theorem c4_catalog_membership (doc doc2 : Option (List (String × GoVal)))
    (arr : List GoVal) (p2 q q2 : Project) (i : Int)
    (harr : assertArr (lookupKey doc kRewards) = Except.ok arr)
    (h : getProjectData doc emptyProject = Except.ok p2)
    (hq : q.initialized = true)
    (hq2 : getProjectData doc2 q = Except.ok q2) :
    ((mLookup p2.rewards i).isSome = true ↔
      ∃ v ∈ arr, isCandidateFor v i = true) ∧
    (mLookup q2.rewards i).isSome = (mLookup q.rewards i).isSome := by
  constructor
  · obtain ⟨p1, hb, hr⟩ := getProjectData_uninitialized rfl h
    obtain ⟨pname, cur, arr1, m, hn, hc, ha1, hbr, rfl⟩ := bootstrapProject_ok hb
    obtain ⟨arr2, m2, ha2, hrr, rfl⟩ := refreshProject_ok hr
    rw [harr] at ha1 ha2
    injection ha1 with ha1
    injection ha2 with ha2
    subst ha1
    subst ha2
    dsimp only at hrr ⊢
    rw [refreshRewards_keys arr m m2 hrr i]
    rw [bootstrapRewards_mem arr [] m hbr i]
    simp [mLookup]
  · obtain ⟨arr2, m2, ha2, hrr, rfl⟩ :=
      refreshProject_ok (getProjectData_initialized hq hq2)
    dsimp only at hrr ⊢
    exact refreshRewards_keys arr2 q.rewards m2 hrr i

/-- Witness for C4 on the concrete bootstrap document doc0 and refresh
document doc1, at id 1. -/
theorem c4_catalog_membership_witness :
    ((mLookup projA.rewards 1).isSome = true ↔
      ∃ v ∈ [entryA0], isCandidateFor v 1 = true) ∧
    (mLookup projA.rewards 1).isSome = (mLookup projA.rewards 1).isSome :=
  c4_catalog_membership (some doc0) (some doc1) [entryA0] projA projA projA 1
    rfl rfl rfl rfl

/-- Claim C5: confirmed. A reconcile call on an initialized state never
changes the project name, the currency symbol, or the identity fields id,
title, title_with_price and price of any catalog entry: every entry survives
with the same identity, only available and limit possibly differing. -/
theorem c5_identity_frame (doc : Option (List (String × GoVal)))
    (q q2 : Project) (hq : q.initialized = true)
    (h : getProjectData doc q = Except.ok q2) :
    q2.name = q.name ∧ q2.currency_symbol = q.currency_symbol ∧
    ∀ i r, mLookup q.rewards i = some r →
      ∃ r2, mLookup q2.rewards i = some r2 ∧ identitySame r r2 := by
  obtain ⟨arr, m2, ha, hrr, rfl⟩ :=
    refreshProject_ok (getProjectData_initialized hq h)
  exact ⟨rfl, rfl, fun i r hr =>
    refreshRewards_identity arr q.rewards m2 hrr i r hr⟩

/-- Witness for C5 on the concrete refresh of projA with doc1. -/
theorem c5_identity_frame_witness :
    projA.name = projA.name ∧ projA.currency_symbol = projA.currency_symbol ∧
    ∀ i r, mLookup projA.rewards i = some r →
      ∃ r2, mLookup projA.rewards i = some r2 ∧ identitySame r r2 :=
  c5_identity_frame (some doc1) projA projA rfl rfl

/-- Catalog with a single limited and exhausted reward with id 123 and
price 10, as a price-list mode selection target. -/
def catalog6 : List (Int × Reward) :=
  [(123, ⟨123, "T", "T (10 USD)", 10, 0, 5⟩)]

/-- Claim C6, settled as a code bug. The claim states price-list mode adds
to the watch set every catalog entry whose price matches a requested price.
On a catalog holding reward 123 at price 10 and the requested price list
containing 10, findRewardsByPrice correctly finds the id 123, but the
registration loop is for i := range r, which in Go ranges over the slice
indices, so the watch map receives the key 0 bound to the nil pointer
rewards[0] instead of the entry 123; the watch map is then non-empty, no
interactive fallback occurs, and the summary printing loop dereferences the
nil pointer. -/
theorem c6_price_mode_registers_indices :
    findRewardsByPrice catalog6 10 = [123] ∧
    registerWatchedRewards catalog6 false [10] =
      RegisterOutcome.registered [((0 : Int), none)] [] false ∧
    summaryPanics [((0 : Int), none)] = true :=
  ⟨rfl, rfl, rfl⟩

/-- Claim C7: confirmed. With an empty catalog, registerWatchedRewards
reports that everything is available and exits the process with status 0,
before any of the all, price-list or interactive selection paths runs, for
every flag configuration. -/
theorem c7_empty_catalog_exits_zero (watchAll : Bool) (watchList : List Int) :
    registerWatchedRewards [] watchAll watchList =
      RegisterOutcome.exitSuccess := rfl

theorem goHasSuffix_append (s d : List Char) :
    goHasSuffix (s ++ d) d = true := by
  unfold goHasSuffix
  have h1 : d.length ≤ (s ++ d).length := by simp
  have h2 : List.drop ((s ++ d).length - d.length) (s ++ d) = d := by
    rw [List.length_append, Nat.add_sub_cancel]
    exact List.drop_left s d
  simp [h1, h2]

theorem parseArgsNormalizeURL_eq (u : GoURL) :
    parseArgsNormalizeURL u =
      if goHasSuffix u.preQuery descriptionSuffix then u.preQuery
      else u.preQuery ++ descriptionSuffix := rfl

/-- Claim C8: confirmed. For every parsed project URL, parseArgs stores a
URL that does not depend on the query string, contains no question mark when
the part before the query contains none, ends with the description suffix,
and is kept unchanged exactly when the query-stripped URL already ends with
that suffix. -/
theorem c8_url_normalization (u : GoURL) (h : ('?' : Char) ∉ u.preQuery) :
    parseArgsNormalizeURL u = parseArgsNormalizeURL ⟨u.preQuery, []⟩ ∧
    ('?' : Char) ∉ parseArgsNormalizeURL u ∧
    goHasSuffix (parseArgsNormalizeURL u) descriptionSuffix = true ∧
    (goHasSuffix u.preQuery descriptionSuffix = true →
      parseArgsNormalizeURL u = u.preQuery) := by
  have hq : ('?' : Char) ∉ descriptionSuffix := by decide
  refine ⟨rfl, ?_, ?_, ?_⟩
  · rw [parseArgsNormalizeURL_eq]
    by_cases hs : goHasSuffix u.preQuery descriptionSuffix = true
    · rw [if_pos hs]; exact h
    · rw [if_neg hs]
      intro hmem
      rcases List.mem_append.mp hmem with h1 | h2
      · exact h h1
      · exact hq h2
  · rw [parseArgsNormalizeURL_eq]
    by_cases hs : goHasSuffix u.preQuery descriptionSuffix = true
    · rw [if_pos hs]; exact hs
    · rw [if_neg hs]; exact goHasSuffix_append u.preQuery descriptionSuffix
  · intro hs
    rw [parseArgsNormalizeURL_eq, if_pos hs]

/-- Witness for C8 on a concrete project URL carrying a query string. -/
theorem c8_url_normalization_witness :
    parseArgsNormalizeURL ⟨"https://ks.example/projects/a/b".toList,
        "ref=discovery".toList⟩ =
      "https://ks.example/projects/a/b/description".toList ∧
    ('?' : Char) ∉ parseArgsNormalizeURL ⟨"https://ks.example/projects/a/b".toList,
        "ref=discovery".toList⟩ := by
  have h := c8_url_normalization
    ⟨"https://ks.example/projects/a/b".toList, "ref=discovery".toList⟩
    (by decide)
  exact ⟨by decide, h.2.1⟩

/-- Names through which the Send loop attempted a delivery, over a list of
notifier names all of whose Send calls returned nil. -/
def attemptedNames (tg : Telegram) (deliver : String → Option String)
    (message : String) (ns : List String) : List String :=
  ns.filter (fun n => (notifierStep tg deliver message n).2)

/-- Claim C9: confirmed. SendNotification walks the notifier list in order:
when the notifiers before n all produce a nil Send error and the Send of n
fails with e, the loop returns e at once and the attempted deliveries are
exactly those of the prefix plus n itself, none from the remainder of the
list; and on any list the result is nil exactly when every notifier of the
list produced a nil Send error. -/
theorem c9_send_notification_first_error (tg : Telegram)
    (deliver : String → Option String) (message : String)
    (ns1 ns2 : List String) (n : String) (e : String)
    (h1 : ∀ m ∈ ns1, (notifierStep tg deliver message m).1 = none)
    (h2 : (notifierStep tg deliver message n).1 = some e) :
    SendNotification tg deliver message (ns1 ++ n :: ns2) =
      (some e, attemptedNames tg deliver message ns1 ++
        (if (notifierStep tg deliver message n).2 then [n] else [])) ∧
    ∀ ns, ((SendNotification tg deliver message ns).1 = none ↔
      ∀ m ∈ ns, (notifierStep tg deliver message m).1 = none) := by
  constructor
  · induction ns1 with
    | nil =>
      simp only [List.nil_append, SendNotification, h2, attemptedNames,
        List.filter_nil]
    | cons m rest ih =>
      have hm := h1 m (List.mem_cons_self m rest)
      have ih2 := ih (fun t ht => h1 t (List.mem_cons_of_mem m ht))
      simp only [List.cons_append, SendNotification, hm, ih2, attemptedNames,
        List.filter_cons]
      by_cases hb : (notifierStep tg deliver message m).2 = true
      · simp [ih2, hb, attemptedNames]
      · simp only [Bool.not_eq_true] at hb
        simp [ih2, hb, attemptedNames]
  · intro ns
    induction ns with
    | nil => simp [SendNotification]
    | cons m rest ih =>
      cases hm : (notifierStep tg deliver message m).1 with
      | some e2 => simp [SendNotification, hm]
      | none => simp [SendNotification, hm, ih]

/-- Witness for C9: a configured Telegram notifier whose delivery fails,
listed twice; the loop stops after the first failure, so only one delivery
is attempted and its error is returned. -/
theorem c9_send_notification_first_error_witness :
    SendNotification ⟨"token123", 42⟩ (fun _ => some "boom") "msg"
      ["telegram", "telegram"] = (some "boom", ["telegram"]) := by
  have h := c9_send_notification_first_error ⟨"token123", 42⟩
    (fun _ => some "boom") "msg" [] ["telegram"] "telegram" "boom"
    (fun m hm => absurd hm (by simp)) rfl
  exact h.1

theorem filter_false_nil {α : Type} (l : List α) (p : α → Bool)
    (h : ∀ a ∈ l, p a = false) : l.filter p = [] := by
  induction l with
  | nil => rfl
  | cons a tl ih =>
    have ha := h a (List.mem_cons_self a tl)
    simp only [List.filter_cons, ha]
    simpa using ih (fun b hb => h b (List.mem_cons_of_mem a hb))

/-- Claim C10: confirmed. With no configured notifier, TestNotifiers
returns the distinguished non-nil error, so parseArgs with the
test-notification flag set exits with status 1, while the steady-state
Telegram Send of the unconfigured notifier returns nil without attempting
any delivery, so polling silently does nothing on notification. -/
theorem c10_unconfigured_test_fails_steady_noop (tg : Telegram)
    (deliver : String → Option String) (ns : List String) (message : String)
    (h : tg.isConfigured = false) :
    TestNotifiers tg deliver ns = some "no notifier has been configured" ∧
    testNotificationGate true (TestNotifiers tg deliver ns) = some 1 ∧
    Telegram.Send tg deliver message = (none, false) := by
  have hfil : ns.filter (fun n => notifierIsConfigured tg n) = [] := by
    apply filter_false_nil
    intro a ha
    unfold notifierIsConfigured
    by_cases hae : a = "telegram"
    · rw [if_pos hae]; exact h
    · rw [if_neg hae]
  have ht : TestNotifiers tg deliver ns =
      some "no notifier has been configured" := by
    simp [TestNotifiers, hfil]
  refine ⟨ht, ?_, ?_⟩
  · rw [ht]; rfl
  · unfold Telegram.Send
    rw [h]
    rfl

/-- Witness for C10 with the registry built by InitNotifiers and the zero
flag values. -/
theorem c10_unconfigured_test_fails_steady_noop_witness :
    TestNotifiers ⟨"", 0⟩ (fun _ => some "boom") initNotifierNames =
      some "no notifier has been configured" ∧
    testNotificationGate true
      (TestNotifiers ⟨"", 0⟩ (fun _ => some "boom") initNotifierNames) =
      some 1 ∧
    Telegram.Send ⟨"", 0⟩ (fun _ => some "boom") "msg" = (none, false) :=
  c10_unconfigured_test_fails_steady_noop ⟨"", 0⟩ (fun _ => some "boom")
    initNotifierNames "msg" rfl
